import Mathlib

/-!
Shallow embedding of the parts of the `text_renderer` repository that the
verified properties below are about.  Machine integers of the Python source
are modelled as `Int` (Python ints are unbounded); Python's floor division
`//` is `Int.fdiv`; fallible code returns `Except`.  Randomness is modelled
by passing the raw draw of the generator as an explicit natural-number
argument: `random.randint(a, b)` (inclusive on both ends) becomes
`pyRandint a b r = a + r % (b - a + 1)` and `np.random.randint(a, b)`
(half-open) becomes `npRandint a b r = a + r % (b - a)`; as `r` ranges over
the naturals these take exactly the values the library calls can return.
-/

namespace TextRenderer

/-- Axis-aligned integer rectangle: class `BBox` of
`text_renderer/utils/bbox.py` (fields `left`, `top`, `right`, `bottom`). -/
structure BBox where
  left : Int
  top : Int
  right : Int
  bottom : Int
deriving Repr, DecidableEq

namespace BBox

/-- Accessor `BBox.cx`: `(self.left + self.right) // 2` (Python floor division). -/
def cx (b : BBox) : Int := (b.left + b.right).fdiv 2

/-- Accessor `BBox.cy`: `(self.top + self.bottom) // 2` (Python floor division). -/
def cy (b : BBox) : Int := (b.top + b.bottom).fdiv 2

/-- Accessor `BBox.cnt`: `(self.cx, self.cy)`. -/
def cnt (b : BBox) : Int × Int := (b.cx, b.cy)

/-- Accessor `BBox.left_cnt`: `(self.left, self.cy)`. -/
def left_cnt (b : BBox) : Int × Int := (b.left, b.cy)

/-- Accessor `BBox.top_cnt`: `(self.cx, self.top)`. -/
def top_cnt (b : BBox) : Int × Int := (b.cx, b.top)

/-- Accessor `BBox.right_cnt`: `(self.right, self.cy)`. -/
def right_cnt (b : BBox) : Int × Int := (b.right, b.cy)

/-- Accessor `BBox.bottom_cnt`: `(self.cx, self.bottom)`. -/
def bottom_cnt (b : BBox) : Int × Int := (b.cx, b.bottom)

/-- Accessor `BBox.left_top`: `(self.left, self.top)`. -/
def left_top (b : BBox) : Int × Int := (b.left, b.top)

/-- Accessor `BBox.left_bottom`: `(self.left, self.bottom)`. -/
def left_bottom (b : BBox) : Int × Int := (b.left, b.bottom)

/-- Accessor `BBox.right_top`: `(self.right, self.top)`. -/
def right_top (b : BBox) : Int × Int := (b.right, b.top)

/-- Accessor `BBox.right_bottom`: `(self.right, self.bottom)`. -/
def right_bottom (b : BBox) : Int × Int := (b.right, b.bottom)

/-- Accessor `BBox.height`: `self.bottom - self.top`. -/
def height (b : BBox) : Int := b.bottom - b.top

/-- Accessor `BBox.width`: `self.right - self.left`. -/
def width (b : BBox) : Int := b.right - b.left

/-- Method `BBox.offset_` followed by the copy made in `BBox.offset`: translate the
box so that `anchor` lands on `move_to` (`offset_x = move_to[0] - anchor[0]`,
`offset_y = move_to[1] - anchor[1]`, added to all four coordinates). -/
def offset (b : BBox) (anchor move_to : Int × Int) : BBox :=
  { left := b.left + (move_to.1 - anchor.1)
    right := b.right + (move_to.1 - anchor.1)
    top := b.top + (move_to.2 - anchor.2)
    bottom := b.bottom + (move_to.2 - anchor.2) }

/-- Static method `BBox.from_bboxes(boxes)` on a non-empty list `b :: bs`:
`left = max(min(lefts), 0)`, `top = max(min(tops), 0)`,
`right = max(rights)`, `bottom = max(bottoms)`.  (Python `min`/`max` over a
non-empty list are the `foldl` of the binary operations over the head and
tail.) -/
def from_bboxes (b : BBox) (bs : List BBox) : BBox :=
  { left := max ((bs.map left).foldl min b.left) 0
    top := max ((bs.map top).foldl min b.top) 0
    right := (bs.map right).foldl max b.right
    bottom := (bs.map bottom).foldl max b.bottom }

/-- Static method `BBox.from_size(size)`: the box `(0, 0, w, h)`. -/
def from_size (size : Int × Int) : BBox :=
  { left := 0, top := 0, right := size.1, bottom := size.2 }

/-- Containment: `r` contains `b`: each of `b`'s four edges lies within `r`
("each input box's left/top/right/bottom lie within the returned box"). -/
def covers (r b : BBox) : Prop :=
  r.left ≤ b.left ∧ r.top ≤ b.top ∧ b.right ≤ r.right ∧ b.bottom ≤ r.bottom

instance (r b : BBox) : Decidable (covers r b) := by
  unfold covers; infer_instance

/-- The point accessors of `BBox` ("points on the box"). -/
def pointAccessors : List (BBox → Int × Int) :=
  [left_top, left_bottom, right_top, right_bottom,
   left_cnt, right_cnt, top_cnt, bottom_cnt, cnt]

end BBox

/-- Python `random.randint(a, b)`: an integer in the closed interval
`[a, b]`, as a function of the raw draw `r`. -/
def pyRandint (a b r : ℕ) : ℕ := a + r % (b - a + 1)

/-- Function `numpy.random.randint(a, b)`: an integer in the half-open interval
`[a, b)`, as a function of the raw draw `r` (requires `a < b`). -/
def npRandint (a b r : ℕ) : ℕ := a + r % (b - a)

/-- Size selection of `FontManager.get_font`
(`font_manager.py`): `font_size = random.randint(self.font_size_min,
self.font_size_max)`. -/
def get_font_size (font_size_min font_size_max r : ℕ) : ℕ :=
  pyRandint font_size_min font_size_max r

/-- Method `CharCorpus.get_text` (`corpus/char_corpus.py`):
`length = np.random.randint(*self.cfg.length)`,
`start = np.random.randint(0, len(self.text) - length)`,
`word = self.text[start : start + length]`.  The loaded corpus text is a
list of characters; the two raw generator draws are explicit arguments. -/
def char_corpus_get_text (text : List Char) (min_len max_len rLen rStart : ℕ) :
    List Char :=
  let length := npRandint min_len max_len rLen
  let start := npRandint 0 (text.length - length) rStart
  (text.drop start).take length

/-- The whitespace characters stripped by Python `str.strip()`
(the ASCII ones, which are the only ones the proofs below touch). -/
def pyWhitespace (c : Char) : Bool :=
  c = ' ' || c = '\t' || c = '\n' || c = '\r' || c = '\x0b' || c = '\x0c'

/-- Python `line.strip()`: drop leading and trailing whitespace. -/
def pyStrip (l : List Char) : List Char :=
  ((l.dropWhile pyWhitespace).reverse.dropWhile pyWhitespace).reverse

/-- The condition under which the `load_chars_file` loop treats a line as
encoding the space character: `len(line_striped) == 0 and SPACE_CHAR in
line` — the line strips to empty AND the raw line contains a literal space
character.  (A truly empty line `"\n"` strips to empty but contains no
space, so it does NOT satisfy this.) -/
def space_sentinel (l : List Char) : Prop :=
  (pyStrip l).length = 0 ∧ ' ' ∈ l

instance (l : List Char) : Decidable (space_sentinel l) := by
  unfold space_sentinel; infer_instance

/-- The loop body of `load_chars_file` (`utils/utils.py`), over the list of
raw lines (each a list of characters, newline included, as produced by
`readlines`), threading the `assumed_space` flag.  Per line: strip; a
stripped length `> 1` is a `PanicError`; a line satisfying `space_sentinel`
contributes a space — a second such line is the `"Find two space"`
`PanicError`; otherwise the stripped line is appended (an empty line that
contains no space contributes the empty string). -/
def load_chars_loop : List (List Char) → Bool → Except String (List (List Char))
  | [], _ => .ok []
  | line :: rest, assumed_space =>
    let line_striped := pyStrip line
    if 1 < line_striped.length then
      .error "make sure one char one line"
    else if space_sentinel line then
      if assumed_space then
        .error "Find two space"
      else
        (load_chars_loop rest true).map (fun r => [' '] :: r)
    else
      (load_chars_loop rest assumed_space).map (fun r => line_striped :: r)

/-- Function `load_chars_file`: run the loop with `assumed_space = False`, then
`chars = set("".join(lines))` — membership in the returned set is
membership in the concatenation of the collected lines. -/
def load_chars_file (lines : List (List Char)) : Except String (List Char) :=
  (load_chars_loop lines false).map List.flatten

/-- Configuration slot shapes that `Render.__init__` distinguishes with
`isinstance(x, list)` and truthiness: absent (`None`), a single object, or a
Python list of objects. -/
inductive CfgSlot (α : Type) where
  | nothing
  | one (a : α)
  | many (xs : List α)
deriving Repr, DecidableEq

namespace CfgSlot

/-- Function `is_list(obj)` (`utils/types.py`): `isinstance(obj, list)`. -/
def is_list : CfgSlot α → Bool
  | .many _ => true
  | _ => false

/-- Python truthiness of the slot: `None` and `[]` are falsy, any object
and any non-empty list are truthy. -/
def truthy : CfgSlot α → Bool
  | .nothing => false
  | .one _ => true
  | .many xs => !xs.isEmpty

/-- Length `len(...)` of a list slot (only ever taken on `many`). -/
def lenOf : CfgSlot α → ℕ
  | .many xs => xs.length
  | _ => 0

end CfgSlot

/-- The unwrap at the top of `Render.__init__` (`render.py`):
`if isinstance(cfg.corpus, list) and len(cfg.corpus) == 1:
self.corpus = cfg.corpus[0]`. -/
def self_corpus : CfgSlot α → CfgSlot α
  | .many [x] => .one x
  | c => c

/-- The corpus/effects consistency checks of `Render.__init__`
(`render.py`): after unwrapping a singleton corpus list, raise `PanicError`
when (1) both are lists with different lengths, (2) the corpus is a list and
`corpus_effects` is truthy but not a list, or (3) `corpus_effects` is a list
and the corpus is not. -/
def render_init (corpus : CfgSlot α) (corpus_effects : CfgSlot β) :
    Except String Unit :=
  let c := self_corpus corpus
  if c.is_list && corpus_effects.is_list && (c.lenOf != corpus_effects.lenOf) then
    .error "corpus length is not equal to corpus_effects length"
  else if c.is_list && (corpus_effects.truthy && !corpus_effects.is_list) then
    .error "corpus is list, corpus_effects is not list"
  else if !c.is_list && corpus_effects.is_list then
    .error "corpus_effects is list, corpus is not list"
  else
    .ok ()

/-- The mismatch condition the spec describes (stated over the unwrapped
corpus slot): both lists of different lengths, or the corpus a list while a
present effects chain is not, or the effects chain a list while the corpus
is not.  Written from the spec's words, to be compared with `render_init`. -/
def effects_mismatch (c : CfgSlot α) (e : CfgSlot β) : Prop :=
  (c.is_list = true ∧ e.is_list = true ∧ c.lenOf ≠ e.lenOf)
    ∨ (c.is_list = true ∧ e.truthy = true ∧ e.is_list = false)
    ∨ (c.is_list = false ∧ e.is_list = true)

instance (c : CfgSlot α) (e : CfgSlot β) : Decidable (effects_mismatch c e) := by
  unfold effects_mismatch; infer_instance

/-- A store of canvas objects, to make object identity and mutation of PIL
images explicit: an index into the store is a Python reference. -/
structure Heap (C : Type) where
  imgs : List C

/-- Method `Effect.__call__` (`effect/base_effect.py`): the outcome of the
`prob(self.p)` gate is the explicit argument `fire`; `apply` is modelled as
a pure function `applyF` from the value of the canvas it receives (and the
bbox) to the value of the canvas it returns (and the new bbox).  When the
gate fires, `img = img.copy()` allocates a fresh object (a fresh index,
holding the result of `applyF` on the copied value) and that fresh object is
returned; otherwise the original reference and bbox are returned as they
are. -/
def effect_call (fire : Bool) (applyF : C → BBox → C × BBox)
    (h : Heap C) (i : ℕ) (b : BBox) : Heap C × ℕ × BBox :=
  if fire then
    match h.imgs[i]? with
    | some img =>
      let res := applyF img b
      (⟨h.imgs ++ [res.1]⟩, h.imgs.length, res.2)
    | none => (h, i, b)
  else
    (h, i, b)

/-- The `img_bboxes[i].right += h_spacing` loop of `SameLineLayout.apply`
(`layout/same_line.py`): every box except the last is widened by the drawn
spacing `int(avg_height * np.random.uniform(*self.h_spacing))`; the drawn
integer spacings are the explicit list `spacings` (with
`h_spacing = (0, 0)` every draw is `int(avg_height * 0.0) = 0`). -/
def add_spacings : List BBox → List ℤ → List BBox
  | [], _ => []
  | [b], _ => [b]
  | b :: rest, [] => b :: rest
  | b :: rest, s :: ss =>
    { b with right := b.right + s } :: add_spacings rest ss

/-- The chaining loop of `SameLineLayout.apply`: each box is moved so its
`left_cnt` lands on the previous (already moved) box's `right_cnt`. -/
def chain_boxes (prev : BBox) : List BBox → List BBox
  | [] => []
  | b :: rest =>
    let b2 := b.offset b.left_cnt prev.right_cnt
    b2 :: chain_boxes b2 rest

/-- Method `SameLineLayout.apply` (`layout/same_line.py`) on the image bboxes:
widen all but the last box by the drawn spacings, take the union hull
(`BBox.from_bboxes`), anchor the first box's `left_cnt` at the hull's
`left_cnt`, then chain every later box's `left_cnt` onto the previous box's
`right_cnt`. -/
def same_line_apply (spacings : List ℤ) (img_bboxes : List BBox) : List BBox :=
  match add_spacings img_bboxes spacings with
  | [] => []
  | b :: rest =>
    let merged := BBox.from_bboxes b rest
    let b0 := b.offset b.left_cnt merged.left_cnt
    b0 :: chain_boxes b0 rest

/-! ## Helper lemmas -/

lemma fdiv_two (a : ℤ) : a.fdiv 2 = a / 2 :=
  Int.fdiv_eq_ediv a (by norm_num)

lemma foldl_min_le_self (xs : List ℤ) (x : ℤ) : xs.foldl min x ≤ x := by
  induction xs generalizing x with
  | nil => simp
  | cons a l ih => exact le_trans (ih (min x a)) (min_le_left x a)

lemma foldl_min_le_of_mem {y : ℤ} (xs : List ℤ) (x : ℤ) (hy : y ∈ xs) :
    xs.foldl min x ≤ y := by
  induction xs generalizing x with
  | nil => cases hy
  | cons a l ih =>
    rcases List.mem_cons.mp hy with rfl | h
    · exact le_trans (foldl_min_le_self l (min x y)) (min_le_right x y)
    · exact ih (min x a) h

lemma le_foldl_max_self (xs : List ℤ) (x : ℤ) : x ≤ xs.foldl max x := by
  induction xs generalizing x with
  | nil => simp
  | cons a l ih => exact le_trans (le_max_left x a) (ih (max x a))

lemma le_foldl_max_of_mem {y : ℤ} (xs : List ℤ) (x : ℤ) (hy : y ∈ xs) :
    y ≤ xs.foldl max x := by
  induction xs generalizing x with
  | nil => cases hy
  | cons a l ih =>
    rcases List.mem_cons.mp hy with rfl | h
    · exact le_trans (le_max_right x y) (le_foldl_max_self l (max x y))
    · exact ih (max x a) h

lemma exists_append_take_drop (l : List α) (s n : ℕ) :
    ∃ u v, u ++ (l.drop s).take n ++ v = l :=
  ⟨l.take s, (l.drop s).drop n, by
    rw [List.append_assoc, List.take_append_drop, List.take_append_drop]⟩

/-! ## Claim theorems -/

/-- C1 (counterexample): a single input box with a negative left edge is not
contained in the box `from_bboxes` returns — the hull clamps `left` to `0`,
which moves it to the right of the input box's left edge. -/
theorem C1_counterexample :
    ¬ (BBox.from_bboxes (BBox.mk (-1) 0 2 2) []).covers (BBox.mk (-1) 0 2 2) := by
  decide

/-- C1 (amended): for every non-empty list of boxes all of whose `left` and
`top` edges are non-negative, the box returned by `BBox.from_bboxes`
contains every input box; the returned box is
`left = max(min(lefts), 0)`, `top = max(min(tops), 0)`, `right = max(rights)`,
`bottom = max(bottoms)`, so without the non-negativity hypothesis the clamp
to `0` can land strictly inside an input box. -/
theorem C1_from_bboxes_covers (b : BBox) (bs : List BBox)
    (hnn : ∀ x ∈ b :: bs, 0 ≤ x.left ∧ 0 ≤ x.top) :
    ∀ x ∈ b :: bs, (BBox.from_bboxes b bs).covers x := by
  intro x hx
  obtain ⟨hl, ht⟩ := hnn x hx
  rcases List.mem_cons.mp hx with rfl | hx'
  · exact ⟨max_le (foldl_min_le_self _ _) hl,
      max_le (foldl_min_le_self _ _) ht,
      le_foldl_max_self _ _, le_foldl_max_self _ _⟩
  · exact ⟨max_le (foldl_min_le_of_mem _ _ (List.mem_map_of_mem _ hx')) hl,
      max_le (foldl_min_le_of_mem _ _ (List.mem_map_of_mem _ hx')) ht,
      le_foldl_max_of_mem _ _ (List.mem_map_of_mem _ hx'),
      le_foldl_max_of_mem _ _ (List.mem_map_of_mem _ hx')⟩

/-- C1 (witness): the amended containment at a concrete pair of boxes. -/
theorem C1_from_bboxes_covers_witness :
    (BBox.from_bboxes (BBox.mk 1 2 5 9) [BBox.mk 0 3 7 4]).covers (BBox.mk 0 3 7 4) :=
  C1_from_bboxes_covers (BBox.mk 1 2 5 9) [BBox.mk 0 3 7 4]
    (by decide) (BBox.mk 0 3 7 4) (by decide)

/-- C2 (counterexample): with size range `(3, 4)` the draw `r = 1` selects
font size `4 = max_size`, so the selected size is not always strictly less
than `max_size` — Python `random.randint` includes both endpoints. -/
theorem C2_counterexample :
    get_font_size 3 4 1 = 4 ∧ ¬ get_font_size 3 4 1 < 4 := by
  decide

/-- C2 (amended): for every size range with `min_size < max_size`, every
selected font size is an integer in the closed interval
`[min_size, max_size]` — at least `min_size` and at most `max_size` — and
every integer of that closed interval is selected by some draw. -/
theorem C2_font_size_closed_range (a b r : ℕ) (hab : a < b) :
    (a ≤ get_font_size a b r ∧ get_font_size a b r ≤ b) ∧
      ∀ v, a ≤ v → v ≤ b → ∃ r2, get_font_size a b r2 = v := by
  constructor
  · unfold get_font_size pyRandint
    have h := Nat.mod_lt r (show 0 < b - a + 1 by omega)
    omega
  · intro v hv1 hv2
    refine ⟨v - a, ?_⟩
    unfold get_font_size pyRandint
    have h : (v - a) % (b - a + 1) = v - a := Nat.mod_eq_of_lt (by omega)
    omega

/-- C2 (witness): the amended bounds at the concrete range `(3, 4)`. -/
theorem C2_font_size_closed_range_witness :
    (3 ≤ get_font_size 3 4 0 ∧ get_font_size 3 4 0 ≤ 4) ∧
      ∃ r2, get_font_size 3 4 r2 = 4 :=
  ⟨(C2_font_size_closed_range 3 4 0 (by decide)).1,
   (C2_font_size_closed_range 3 4 0 (by decide)).2 4 (by decide) (by decide)⟩

/-- C5: for every corpus text at least `max_len` long (the construction
guarantee) with `min_len < max_len`, every string `get_text` returns has
length at least `min_len` and strictly less than `max_len`, and is a
contiguous substring of the loaded text. -/
theorem C5_char_corpus_get_text (text : List Char) (min_len max_len rLen rStart : ℕ)
    (h1 : min_len < max_len) (h2 : max_len ≤ text.length) :
    min_len ≤ (char_corpus_get_text text min_len max_len rLen rStart).length ∧
    (char_corpus_get_text text min_len max_len rLen rStart).length < max_len ∧
    ∃ s t, s ++ char_corpus_get_text text min_len max_len rLen rStart ++ t = text := by
  unfold char_corpus_get_text npRandint
  simp only [Nat.sub_zero, Nat.zero_add]
  have hmod : rLen % (max_len - min_len) < max_len - min_len :=
    Nat.mod_lt _ (by omega)
  have hpos : 0 < text.length - (min_len + rLen % (max_len - min_len)) := by omega
  have hstart := Nat.mod_lt rStart hpos
  refine ⟨?_, ?_, exists_append_take_drop text _ _⟩ <;>
    simp only [List.length_take, List.length_drop] <;> omega

/-- C5 (witness): the bounds and substring property at the concrete corpus
text `"aabbcc"` with length range `(2, 4)`. -/
theorem C5_char_corpus_get_text_witness :
    2 ≤ (char_corpus_get_text "aabbcc".data 2 4 1 1).length ∧
    (char_corpus_get_text "aabbcc".data 2 4 1 1).length < 4 ∧
    ∃ s t, s ++ char_corpus_get_text "aabbcc".data 2 4 1 1 ++ t = "aabbcc".data :=
  C5_char_corpus_get_text "aabbcc".data 2 4 1 1 (by decide) (by decide)

/-- C10: the start index of `CharCorpus.get_text` is drawn from the
half-open range `[0, L - length)`, which excludes the last admissible start
position, so the returned substring always fits inside the text with its
final character removed: index `L - 1` is never part of the result. -/
theorem C10_never_includes_last_char (text : List Char)
    (min_len max_len rLen rStart : ℕ)
    (h1 : min_len < max_len) (h2 : max_len ≤ text.length) :
    ∃ s t, s ++ char_corpus_get_text text min_len max_len rLen rStart ++ t
      = text.dropLast := by
  unfold char_corpus_get_text npRandint
  simp only [Nat.sub_zero, Nat.zero_add]
  have hmod : rLen % (max_len - min_len) < max_len - min_len :=
    Nat.mod_lt _ (by omega)
  have hpos : 0 < text.length - (min_len + rLen % (max_len - min_len)) := by omega
  have hstart := Nat.mod_lt rStart hpos
  set len := min_len + rLen % (max_len - min_len) with hlen
  set start := rStart % (text.length - len) with hst
  have hkey : start + len ≤ text.length - 1 := by omega
  have heq : (text.drop start).take len = (text.dropLast.drop start).take len := by
    rw [List.take_drop, List.take_drop, List.dropLast_eq_take, List.take_take]
    congr 2
    omega
  rw [heq]
  exact exists_append_take_drop text.dropLast start len

/-- C10 (witness): the property at the concrete corpus text `"aabbcc"`. -/
theorem C10_never_includes_last_char_witness :
    ∃ s t, s ++ char_corpus_get_text "aabbcc".data 2 4 1 1 ++ t
      = "aabbcc".data.dropLast :=
  C10_never_includes_last_char "aabbcc".data 2 4 1 1 (by decide) (by decide)

/-- C6: for every box `B`, every anchor point that is one of `B`'s named
points (`left_top`, `left_bottom`, `right_top`, `right_bottom`, `left_cnt`,
`right_cnt`, `top_cnt`, `bottom_cnt`, `cnt`) and every target point `t`,
`B.offset(anchor, t)` maps that anchor exactly onto `t` and preserves the
box's width and height. -/
theorem C6_offset_anchor (b : BBox) (t : Int × Int) (f : BBox → Int × Int)
    (hf : f ∈ BBox.pointAccessors) :
    f (b.offset (f b) t) = t ∧ (b.offset (f b) t).width = b.width ∧
      (b.offset (f b) t).height = b.height := by
  refine ⟨?_, by unfold BBox.offset BBox.width; ring,
    by unfold BBox.offset BBox.height; ring⟩
  simp only [BBox.pointAccessors, List.mem_cons, List.not_mem_nil, or_false] at hf
  rcases hf with rfl | rfl | rfl | rfl | rfl | rfl | rfl | rfl | rfl <;>
    simp only [BBox.left_top, BBox.left_bottom, BBox.right_top, BBox.right_bottom,
      BBox.left_cnt, BBox.right_cnt, BBox.top_cnt, BBox.bottom_cnt, BBox.cnt,
      BBox.cx, BBox.cy, BBox.offset, fdiv_two, Prod.ext_iff] <;>
    constructor <;> omega

lemma load_chars_loop_two_spaces (lines : List (List Char)) (b : Bool)
    (hv : ∀ l ∈ lines, (pyStrip l).length ≤ 1)
    (hs : 2 ≤ lines.countP (fun l => decide (space_sentinel l))
      + (if b then 1 else 0)) :
    ∀ r, load_chars_loop lines b ≠ .ok r := by
  induction lines generalizing b with
  | nil =>
    intro r
    exfalso
    cases b <;> simp [List.countP_nil] at hs
  | cons line rest ih =>
    intro r hok
    have hv1 : (pyStrip line).length ≤ 1 := hv line (List.mem_cons_self _ _)
    have hv2 : ∀ l ∈ rest, (pyStrip l).length ≤ 1 :=
      fun l hl => hv l (List.mem_cons_of_mem _ hl)
    rw [List.countP_cons] at hs
    simp only [load_chars_loop] at hok
    rw [if_neg (show ¬ 1 < (pyStrip line).length by omega)] at hok
    by_cases h2 : space_sentinel line
    · have hc : decide (space_sentinel line) = true := by simpa using h2
      rw [if_pos h2] at hok
      cases b with
      | true => rw [if_pos rfl] at hok; exact absurd hok (by simp)
      | false =>
        rw [if_neg (by simp)] at hok
        cases hres : load_chars_loop rest true with
        | error e => rw [hres] at hok; exact absurd hok (by simp [Except.map])
        | ok v =>
          refine ih true hv2 ?_ v hres
          rw [hc] at hs
          simpa using hs
    · have hc : decide (space_sentinel line) = false := by simpa using h2
      rw [if_neg h2] at hok
      cases hres : load_chars_loop rest b with
      | error e => rw [hres] at hok; exact absurd hok (by simp [Except.map])
      | ok v =>
        refine ih b hv2 ?_ v hres
        rw [hc] at hs
        simpa using hs

lemma load_chars_loop_space_mem (lines : List (List Char)) :
    ∀ (b : Bool) (r : List (List Char)), load_chars_loop lines b = .ok r →
      (∃ l ∈ lines, space_sentinel l) → [' '] ∈ r := by
  induction lines with
  | nil =>
    intro b r _ hex
    simp at hex
  | cons line rest ih =>
    intro b r hok hex
    simp only [load_chars_loop] at hok
    by_cases h1 : 1 < (pyStrip line).length
    · rw [if_pos h1] at hok; exact absurd hok (by simp)
    · rw [if_neg h1] at hok
      by_cases h2 : space_sentinel line
      · rw [if_pos h2] at hok
        cases b with
        | true => rw [if_pos rfl] at hok; exact absurd hok (by simp)
        | false =>
          rw [if_neg (by simp)] at hok
          cases hres : load_chars_loop rest true with
          | error e => rw [hres] at hok; exact absurd hok (by simp [Except.map])
          | ok v =>
            rw [hres] at hok
            simp only [Except.map, Except.ok.injEq] at hok
            subst hok
            exact List.mem_cons_self _ _
      · rw [if_neg h2] at hok
        cases hres : load_chars_loop rest b with
        | error e => rw [hres] at hok; exact absurd hok (by simp [Except.map])
        | ok v =>
          rw [hres] at hok
          simp only [Except.map, Except.ok.injEq] at hok
          rcases hex with ⟨l, hl, hsl⟩
          rcases List.mem_cons.mp hl with rfl | hl2
          · exact absurd hsl h2
          · subst hok
            exact List.mem_cons_of_mem _ (ih b v hres ⟨l, hl2, hsl⟩)

/-- C4 (counterexample): a file of two truly blank lines (each just a
newline, containing no space character) raises no error at all — it loads
as the empty character set — and a file of one blank line plus a one-char
line loads without the space character in the result.  The code treats a
stripped-empty line as the space character only when the raw line contains
a literal space (`" " in line`). -/
theorem C4_counterexample :
    load_chars_file [['\n'], ['\n']] = .ok []
      ∧ load_chars_file [['a', '\n'], ['\n']] = .ok ['a']
      ∧ ' ' ∉ (['a'] : List Char) :=
  ⟨by rfl, by rfl, by decide⟩

/-- C4 (amended): with "blank line" read as a line that strips to empty and
contains a literal space character (`space_sentinel`): loading a
character-set file whose lines all strip to at most one character and that
contains two such space lines raises a fatal configuration error, and any
successfully loaded file containing such a space line yields a set that
contains the space character. -/
theorem C4_space_lines :
    (∀ lines : List (List Char), (∀ l ∈ lines, (pyStrip l).length ≤ 1) →
        2 ≤ lines.countP (fun l => decide (space_sentinel l)) →
        ∀ cs, load_chars_file lines ≠ .ok cs) ∧
    (∀ (lines : List (List Char)) (cs : List Char),
        load_chars_file lines = .ok cs →
        (∃ l ∈ lines, space_sentinel l) → ' ' ∈ cs) := by
  constructor
  · intro lines hv hs cs hok
    unfold load_chars_file at hok
    cases hres : load_chars_loop lines false with
    | error e => rw [hres] at hok; simp [Except.map] at hok
    | ok r => exact load_chars_loop_two_spaces lines false hv (by simpa using hs) r hres
  · intro lines cs hok hex
    unfold load_chars_file at hok
    cases hres : load_chars_loop lines false with
    | error e => rw [hres] at hok; simp [Except.map] at hok
    | ok r =>
      rw [hres] at hok
      simp only [Except.map, Except.ok.injEq] at hok
      subst hok
      exact List.mem_flatten_of_mem (load_chars_loop_space_mem lines false r hres hex)
        (List.mem_cons_self _ _)

/-- C4 (witness): the amended behavior on concrete files — two space lines
error out, one space line next to a one-char line yields a set containing
the space. -/
theorem C4_space_lines_witness :
    load_chars_file [[' ', '\n'], [' ', '\n']] ≠ .ok [' ', ' ']
      ∧ ' ' ∈ (['a', ' '] : List Char) :=
  ⟨C4_space_lines.1 [[' ', '\n'], [' ', '\n']] (by decide) (by decide) [' ', ' '],
   C4_space_lines.2 [['a', '\n'], [' ', '\n']] ['a', ' '] (by rfl)
     ⟨[' ', '\n'], by decide, by decide⟩⟩

/-- C3 (counterexample): a corpus list of length 1 paired with an
effect-chain list of the same length 1 raises a fatal configuration error —
the singleton corpus list is first unwrapped to a single corpus, after
which the length-1 effects list is a list/non-list mismatch — refuting the
claim that same-length lists succeed for every `N >= 1`. -/
theorem C3_counterexample :
    render_init (CfgSlot.many [()]) (CfgSlot.many [()])
      = .error "corpus_effects is list, corpus is not list" := by
  rfl

/-- C3 (amended): after the singleton-corpus unwrap, construction fails
exactly when the unwrapped corpus slot and the effect-chain slot mismatch
(both lists of different lengths; corpus a list while a present, non-list
effects chain is given; effects a list while the corpus is not — an absent
effects chain never mismatches); in particular, for every `N >= 2`,
same-length lists on both sides succeed, while `N = 1` falls into the
unwrap and is rejected. -/
theorem C3_render_init {α β : Type} :
    (∀ (c : CfgSlot α) (e : CfgSlot β),
        render_init c e = .ok () ↔ ¬ effects_mismatch (self_corpus c) e) ∧
    (∀ n : ℕ, 2 ≤ n → ∀ (a : α) (y : β),
        render_init (CfgSlot.many (List.replicate n a))
          (CfgSlot.many (List.replicate n y)) = .ok ()) := by
  constructor
  · intro c e
    simp only [render_init]
    split_ifs with h1 h2 h3
    · simp only [Bool.and_eq_true, bne_iff_ne] at h1
      exact iff_of_false (by simp)
        (not_not_intro (Or.inl ⟨h1.1.1, h1.1.2, h1.2⟩))
    · simp only [Bool.and_eq_true, Bool.not_eq_true'] at h2
      exact iff_of_false (by simp)
        (not_not_intro (Or.inr (Or.inl ⟨h2.1, h2.2.1, h2.2.2⟩)))
    · simp only [Bool.and_eq_true, Bool.not_eq_true'] at h3
      exact iff_of_false (by simp)
        (not_not_intro (Or.inr (Or.inr ⟨h3.1, h3.2⟩)))
    · refine iff_of_true rfl (fun hm => ?_)
      rcases hm with ⟨ha, hb, hc⟩ | ⟨ha, hb, hc⟩ | ⟨ha, hb⟩
      · exact h1 (by simp only [Bool.and_eq_true, bne_iff_ne]; exact ⟨⟨ha, hb⟩, hc⟩)
      · exact h2 (by simp only [Bool.and_eq_true, Bool.not_eq_true']; exact ⟨ha, hb, hc⟩)
      · exact h3 (by simp only [Bool.and_eq_true, Bool.not_eq_true']; exact ⟨ha, hb⟩)
  · intro n hn a y
    obtain ⟨m, rfl⟩ : ∃ m, n = m + 2 := ⟨n - 2, by omega⟩
    have hsc : self_corpus (CfgSlot.many (List.replicate (m + 2) a))
        = CfgSlot.many (List.replicate (m + 2) a) := rfl
    simp only [render_init]
    rw [hsc]
    simp [CfgSlot.is_list, CfgSlot.truthy, CfgSlot.lenOf]

/-- C3 (witness): the amended characterization and the `N = 2` success at
concrete slots. -/
theorem C3_render_init_witness :
    (render_init (CfgSlot.many [(), ()]) (CfgSlot.one ()) = .ok ()
      ↔ ¬ effects_mismatch (self_corpus (CfgSlot.many [(), ()])) (CfgSlot.one ())) ∧
    render_init (CfgSlot.many [(), ()]) (CfgSlot.many [(), ()]) = .ok () :=
  ⟨C3_render_init.1 (CfgSlot.many [(), ()]) (CfgSlot.one ()),
   C3_render_init.2 2 (by decide) () ()⟩

/-- C7: through the probability gate of `Effect.__call__`: when the gate
does not fire the call returns exactly the input canvas reference and the
input bbox; when it fires it returns a freshly allocated copy holding the
result of `apply`, so the caller's original canvas object is left
untouched. -/
theorem C7_effect_gate {C : Type} :
    (∀ (applyF : C → BBox → C × BBox) (h : Heap C) (i : ℕ) (b : BBox),
        effect_call false applyF h i b = (h, i, b)) ∧
    (∀ (applyF : C → BBox → C × BBox) (h : Heap C) (i : ℕ) (b : BBox) (img : C),
        h.imgs[i]? = some img →
          (effect_call true applyF h i b).1.imgs[i]? = some img ∧
          (effect_call true applyF h i b).2.1 ≠ i ∧
          (effect_call true applyF h i b).1.imgs[(effect_call true applyF h i b).2.1]?
            = some (applyF img b).1 ∧
          (effect_call true applyF h i b).2.2 = (applyF img b).2) := by
  refine ⟨fun f h i b => rfl, fun f h i b img hi => ?_⟩
  have hilen : i < h.imgs.length := by
    rcases Nat.lt_or_ge i h.imgs.length with h' | h'
    · exact h'
    · rw [List.getElem?_eq_none h'] at hi; cases hi
  have hcall : effect_call true f h i b
      = (⟨h.imgs ++ [(f img b).1]⟩, h.imgs.length, (f img b).2) := by
    unfold effect_call
    rw [if_pos rfl, hi]
  rw [hcall]
  exact ⟨(List.getElem?_append_left hilen).trans hi,
    by show h.imgs.length ≠ i; omega,
    List.getElem?_concat_length _ _, rfl⟩

/-- C7 (witness): the gate behavior at a concrete one-canvas heap. -/
theorem C7_effect_gate_witness :
    effect_call false (fun (c : ℕ) (bb : BBox) => (c + 1, bb)) ⟨[5]⟩ 0 (BBox.mk 0 0 1 1)
      = (⟨[5]⟩, 0, BBox.mk 0 0 1 1) ∧
    (effect_call true (fun (c : ℕ) (bb : BBox) => (c + 1, bb)) ⟨[5]⟩ 0
        (BBox.mk 0 0 1 1)).1.imgs[0]? = some 5 :=
  ⟨C7_effect_gate.1 _ _ _ _,
   (C7_effect_gate.2 (fun (c : ℕ) (bb : BBox) => (c + 1, bb)) ⟨[5]⟩ 0
     (BBox.mk 0 0 1 1) 5 rfl).1⟩

/-- C8: `SameLineLayout.apply` on two boxes of equal height with
`h_spacing = (0, 0)` (so the drawn spacing is `0`) yields output boxes in
which the second box's left-center point equals the first box's
right-center point. -/
theorem C8_same_line_left_cnt (a c : BBox) (hh : a.height = c.height) :
    ∃ o0 o1, same_line_apply [0] [a, c] = [o0, o1]
      ∧ o1.left_cnt = o0.right_cnt := by
  refine ⟨_, _, rfl, ?_⟩
  simp only [same_line_apply, add_spacings, chain_boxes, BBox.from_bboxes,
    BBox.offset, BBox.left_cnt, BBox.right_cnt, BBox.cx, BBox.cy,
    List.map, List.foldl, fdiv_two, Prod.ext_iff]
  constructor <;> omega

/-- C8 (witness): the alignment at a concrete pair of equal-height boxes. -/
theorem C8_same_line_left_cnt_witness :
    ∃ o0 o1, same_line_apply [0] [BBox.mk 0 0 4 2, BBox.mk 1 1 3 3] = [o0, o1]
      ∧ o1.left_cnt = o0.right_cnt :=
  C8_same_line_left_cnt (BBox.mk 0 0 4 2) (BBox.mk 1 1 3 3) (by decide)

/-- C6 (witness): the anchor property at a concrete box, target and anchor
accessor. -/
theorem C6_offset_anchor_witness :
    BBox.cnt ((BBox.mk 1 2 5 9).offset ((BBox.mk 1 2 5 9).cnt) (7, 8)) = (7, 8) ∧
    ((BBox.mk 1 2 5 9).offset ((BBox.mk 1 2 5 9).cnt) (7, 8)).width
      = (BBox.mk 1 2 5 9).width ∧
    ((BBox.mk 1 2 5 9).offset ((BBox.mk 1 2 5 9).cnt) (7, 8)).height
      = (BBox.mk 1 2 5 9).height :=
  C6_offset_anchor (BBox.mk 1 2 5 9) (7, 8) BBox.cnt (by simp [BBox.pointAccessors])

end TextRenderer
